import Mathlib

/-
  Verification development for the lsif-os indexer.

  The Rust sources under src/ are shallowly embedded below: byte offsets
  become `Nat`, file contents become `List Char` (the analyzed sources are
  ASCII, where byte offsets and character indices coincide), `HashMap`s
  become association lists with insert-replaces semantics, channels become
  explicit lists, and fallible lookups (`unwrap` in the source) become
  `Option`-valued functions whose `none` branch models the panic path and
  is excluded by hypotheses where a theorem needs the happy path.
-/

set_option linter.unusedVariables false
set_option linter.unusedSectionVars false

namespace Lsif

/-- Mirrors `tree_sitter::Point` as used throughout src/src/analyzer/analyzer.rs. -/
structure Point where
  row : Nat
  column : Nat
deriving DecidableEq

/-- Mirrors `tree_sitter::Range`: byte offsets `[start_byte, end_byte)` and
point coordinates of an AST node span. -/
structure TSRange where
  start_byte : Nat
  end_byte : Nat
  start_point : Point
  end_point : Point
deriving DecidableEq

/-- Mirrors `impl Contain for Range` (analyzer.rs):
`self.end_byte >= o.end_byte && self.start_byte <= o.start_byte`. -/
def TSRange.contains (s o : TSRange) : Bool :=
  decide (o.end_byte ≤ s.end_byte) && decide (s.start_byte ≤ o.start_byte)

/-- Mirrors `Location` (analyzer.rs): a range together with the file path. -/
structure Location where
  range : TSRange
  file_path : String
deriving DecidableEq

/-- Mirrors `DefinitionKind` (analyzer.rs; re-exported to the indexer under
the name `DefinitionScope`). -/
inductive DefinitionKind where
  | Exported : DefinitionKind
  | Scoped : TSRange → DefinitionKind
deriving DecidableEq

/-- Mirrors `Definition` (analyzer.rs). -/
structure Definition where
  location : Location
  node_name : String
  comment : Option String
  kind : DefinitionKind
deriving DecidableEq

/-- Mirrors `Reference` (analyzer.rs). The source field is called `def`,
which is a Lean keyword, so it is named `rdef` here. -/
structure Reference where
  location : Location
  node_name : String
  rdef : Option Definition
deriving DecidableEq

/-- Mirrors `Scope` (analyzer.rs): a range designating a lexical region. -/
structure Scope where
  range : TSRange
deriving DecidableEq

/-- Model of a tree-sitter node as the analyzer consumes it: its range and
its kind string (`node.kind()`). -/
structure TSNode where
  range : TSRange
  kind : String
deriving DecidableEq

/-- Association-list lookup, modelling `HashMap::get`. -/
def lookupA {α β : Type} [DecidableEq α] : List (α × β) → α → Option β
  | [], _ => none
  | (k, v) :: rest, k' => if k = k' then some v else lookupA rest k'

/-- Association-list insert, modelling `HashMap::insert`: an existing
binding for the key is REPLACED (the map keeps the latest value). -/
def insertA {α β : Type} [DecidableEq α] : List (α × β) → α → β → List (α × β)
  | [], k, v => [(k, v)]
  | (k', v') :: rest, k, v =>
      if k' = k then (k, v) :: rest else (k', v') :: insertA rest k v

/-- Association-list in-place update, modelling `HashMap::get_mut(..).unwrap()`
followed by a mutation: a missing key leaves the list unchanged (the source
panics there; theorems below hypothesise the key is present). -/
def updateA {α β : Type} [DecidableEq α] (f : β → β) : List (α × β) → α → List (α × β)
  | [], _ => []
  | (k', v') :: rest, k =>
      if k' = k then (k, f v') :: rest else (k', v') :: updateA f rest k

/-- Association-list append-at-key, modelling
`map.entry(k).or_default()` followed by `push(v)`. -/
def pushAt {α β : Type} [DecidableEq α] : List (α × List β) → α → β → List (α × List β)
  | [], k, v => [(k, [v])]
  | (k', vs) :: rest, k, v =>
      if k' = k then (k, vs ++ [v]) :: rest else (k', vs) :: pushAt rest k v

/-- Mirrors `Analyzer::find_enclosing_scope` (analyzer.rs):
`self.scopes.iter().rev().find_map(|s| if s.range.contains(range) ...)`. -/
def find_enclosing_scope (scopes : List Scope) (range : TSRange) : Option Scope :=
  scopes.reverse.find? (fun s => s.range.contains range)

/-- Mirrors the in-scope test shared by `try_find_def_of` and
`reference_from` (analyzer.rs): an `Exported` definition is always in
scope, a `Scoped(s)` definition is in scope iff `s` contains the range. -/
def def_is_in_scope (k : DefinitionKind) (range : TSRange) : Bool :=
  match k with
  | DefinitionKind.Exported => true
  | DefinitionKind.Scoped scope => scope.contains range

/-- Mirrors `Analyzer::node_text_of` (analyzer.rs): the slice of the file
content between the node's start and end bytes. -/
def node_text_of (content : List Char) (node : TSNode) : String :=
  String.mk ((content.drop node.range.start_byte).take
    (node.range.end_byte - node.range.start_byte))

/-- Mirrors the text part of `Analyzer::line_of` (analyzer.rs): the slice
from the node's start byte to the first newline at or after it; when no
newline follows, `unwrap_or(start_byte)` makes the slice EMPTY. -/
def line_text (content : List Char) (node : TSNode) : String :=
  let start_byte := node.range.start_byte
  let end_byte :=
    (((content.drop start_byte).findIdx? (fun c => c = '\n')).map
      (fun i => i + start_byte)).getD start_byte
  String.mk ((content.drop start_byte).take (end_byte - start_byte))

/-- Mirrors `Analyzer::line_of` (analyzer.rs):
`format!("{} {}", node.kind(), text)`. -/
def line_of (content : List Char) (node : TSNode) : String :=
  node.kind ++ " " ++ line_text content node

/-- Mirrors the zero scope that `definition_from` falls back to when no
enclosing scope exists (analyzer.rs, the `unwrap_or` branch). -/
def zero_scope : Scope :=
  { range := { start_byte := 0, end_byte := 0,
               start_point := { row := 0, column := 0 },
               end_point := { row := 0, column := 0 } } }

/-- Mirrors `Analyzer::definition_from` (analyzer.rs). The analyzer state it
reads (the scope list, the file content, the file name and the pending
comment slot) is passed explicitly; `use_last_comment` clears the slot, so
the pending comment is consumed here and the fallback is `line_of`. -/
def definition_from (scopes : List Scope) (content : List Char)
    (filename : String) (node : TSNode) (is_scoped : Bool)
    (last_comment : Option String) : Definition :=
  let kind :=
    if is_scoped then
      DefinitionKind.Scoped
        (((find_enclosing_scope scopes node.range).getD zero_scope).range)
    else DefinitionKind.Exported
  { location := { range := node.range, file_path := filename },
    node_name := node_text_of content node,
    comment := some (last_comment.getD (line_of content node)),
    kind := kind }

/-- Mirrors `Analyzer::reference_from` (analyzer.rs). The candidate search
walks the per-name definition list FORWARD and skips a candidate whose
range equals the reference's own range:
`.find(|&d| d.location.range != range && is_in_scope)`. -/
def reference_from (defs : List (String × List Definition))
    (content : List Char) (filename : String) (node : TSNode) : Reference :=
  let name := node_text_of content node
  let range := node.range
  let rdef :=
    ((lookupA defs name).getD []).find? (fun d =>
      decide (¬ d.location.range = range) && def_is_in_scope d.kind range)
  { location := { range := range, file_path := filename },
    node_name := name,
    rdef := rdef }

/-- Mirrors `Analyzer::try_find_def_of` (analyzer.rs). Note two facts read
off the source: the assignment `r.def = ...` is UNCONDITIONAL (any prior
resolution is overwritten), the search walks the per-name list in REVERSE
(`.iter().rev().find(..)`), and there is no skip of a candidate located at
the reference's own range. -/
def try_find_def_of (defs : List (String × List Definition))
    (r : Reference) : Reference :=
  { r with rdef :=
      (lookupA defs r.node_name).bind (fun l =>
        l.reverse.find? (fun d =>
          decide (d.node_name = r.node_name) &&
            def_is_in_scope d.kind r.location.range)) }

/-- Mirrors the `AnalysisData::Reference` arm of `Analyzer::run_analysis`
(analyzer.rs): the reference built by `reference_from` is immediately
passed to `try_find_def_of` before being stored. -/
def run_analysis_reference_step (defs : List (String × List Definition))
    (content : List Char) (filename : String) (node : TSNode) : Reference :=
  try_find_def_of defs (reference_from defs content filename node)

/-- Mirrors `protocol::types::Position` (line and character, from a point). -/
structure Position where
  line : Nat
  character : Nat
deriving DecidableEq

/-- Mirrors the `FromPoint` impl in analyzer.rs: row becomes line, column
becomes character. -/
def from_point (p : Point) : Position :=
  { line := p.row, character := p.column }

/-- Mirrors `protocol::types::Range` as emitted in Range vertices: only the
start and end positions are serialized. -/
structure ProtoRange where
  start_pos : Position
  end_pos : Position
deriving DecidableEq

/-- Mirrors `Definition::range` (analyzer.rs). -/
def Definition.range (d : Definition) : ProtoRange :=
  { start_pos := from_point d.location.range.start_point,
    end_pos := from_point d.location.range.end_point }

/-- Mirrors `Reference::range` (analyzer.rs). -/
def Reference.range (r : Reference) : ProtoRange :=
  { start_pos := from_point r.location.range.start_point,
    end_pos := from_point r.location.range.end_point }

/-- Mirrors `Location::file_name` (analyzer.rs): the final component of the
file path. -/
def Location.file_name (l : Location) : String :=
  (l.file_path.splitOn "/").getLastD l.file_path

/-- Mirrors `protocol::types::LSIFMarkedString`. -/
structure MarkedString where
  language : String
  value : String
  is_raw_string : Bool
deriving DecidableEq

/-- Mirrors the `property` tag of `protocol::types::Item`: `Definition`,
`Reference` or `Neither` (serialized as "definitions", "references", ""). -/
inductive ItemProperty where
  | definitions : ItemProperty
  | references : ItemProperty
  | neither : ItemProperty
deriving DecidableEq

/-- Mirrors the `protocol::types::Vertex` payloads the indexer emits. -/
inductive LVertex where
  | range : ProtoRange → LVertex
  | resultSet : LVertex
  | definitionResult : LVertex
  | referenceResult : LVertex
  | hoverResult : List MarkedString → LVertex
  | document : String → LVertex
  | metaData : String → String → LVertex
  | moniker : String → String → String → LVertex
deriving DecidableEq

/-- Mirrors the `protocol::types::Edge` payloads the indexer emits; for the
single-ended edges `out_v` comes first, then `in_v` (the `edge!` macro in
types.rs packs `a -> b` as `out_v = a, in_v = b`). -/
inductive LEdge where
  | contains : Nat → List Nat → LEdge
  | next : Nat → Nat → LEdge
  | definitionEdge : Nat → Nat → LEdge
  | hover : Nat → Nat → LEdge
  | monikerEdge : Nat → Nat → LEdge
  | referencesEdge : Nat → Nat → LEdge
  | item : ItemProperty → Nat → List Nat → Nat → LEdge
deriving DecidableEq

/-- Mirrors `protocol::types::Element`: a vertex or an edge. -/
inductive Element where
  | vertex : LVertex → Element
  | edge : LEdge → Element
deriving DecidableEq

/-- Mirrors `protocol::types::Entry`: the record handed to the sink, an id
plus the element. -/
structure Entry where
  id : Nat
  data : Element
deriving DecidableEq

/-- Mirrors `FileEmitter` (src/src/emitter/file_emitter.rs): the id counter
(starting at 0) and the sink, modelled as the list of records handed to the
writer thread in order. -/
structure FileEmitter where
  id : Nat
  sink : List Entry
deriving DecidableEq

/-- Mirrors `FileEmitter::new`: the id counter starts at 0. -/
def FileEmitter.new : FileEmitter :=
  { id := 0, sink := [] }

/-- Mirrors `FileEmitter::next_id`: increments, then returns the new id. -/
def next_id (e : FileEmitter) : Nat × FileEmitter :=
  (e.id + 1, { e with id := e.id + 1 })

/-- Mirrors `FileEmitter::emit_vertex`: assigns the next id, hands
`Entry { id, data }` to the sink and returns the id synchronously. -/
def emit_vertex (e : FileEmitter) (v : LVertex) : Nat × FileEmitter :=
  let p := next_id e
  (p.1, { p.2 with sink := p.2.sink ++ [{ id := p.1, data := Element.vertex v }] })

/-- Mirrors `FileEmitter::emit_edge`. -/
def emit_edge (e : FileEmitter) (g : LEdge) : Nat × FileEmitter :=
  let p := next_id e
  (p.1, { p.2 with sink := p.2.sink ++ [{ id := p.1, data := Element.edge g }] })

/-- Model of a sequence of `emit_vertex` / `emit_edge` calls: dispatches on
the element kind exactly as a caller would and collects the returned ids in
call order. -/
def run_emits (e : FileEmitter) : List Element → List Nat × FileEmitter
  | [] => ([], e)
  | el :: rest =>
      let p := match el with
        | Element.vertex v => emit_vertex e v
        | Element.edge g => emit_edge e g
      let q := run_emits p.2 rest
      (p.1 :: q.1, q.2)

/-- Mirrors `DocumentInfo` (src/src/analyzer/lsif_data_cache.rs). -/
structure DocumentInfo where
  id : Nat
  definition_range_ids : List Nat
  reference_range_ids : List Nat
deriving DecidableEq

/-- Mirrors `DefinitionInfo` (lsif_data_cache.rs); `reference_range_ids` is
the per-document map document id to range ids. -/
structure DefinitionInfo where
  document_id : Nat
  range_id : Nat
  result_set_id : Nat
  reference_range_ids : List (Nat × List Nat)
deriving DecidableEq

/-- Mirrors `LsifDataCache` (lsif_data_cache.rs); every `HashMap` becomes an
association list with replace-on-insert semantics. -/
structure LsifDataCache where
  documents : List (String × DocumentInfo)
  ranges : List (String × List (Nat × Nat))
  def_infos : List (Location × DefinitionInfo)
  exported_defs : List (String × Definition)
deriving DecidableEq

/-- Mirrors `LsifDataCache::default()`. -/
def LsifDataCache.empty : LsifDataCache :=
  { documents := [], ranges := [], def_infos := [], exported_defs := [] }

/-- Mirrors `LsifDataCache::cache_document`. -/
def cache_document (c : LsifDataCache) (filename : String)
    (document_id : Nat) : LsifDataCache :=
  { c with
    documents := insertA c.documents filename
      { id := document_id, definition_range_ids := [], reference_range_ids := [] },
    ranges := insertA c.ranges filename [] }

/-- Mirrors `LsifDataCache::get_document_id`. -/
def get_document_id (c : LsifDataCache) (filename : String) : Option Nat :=
  (lookupA c.documents filename).map (fun d => d.id)

/-- Mirrors `LsifDataCache::get_range_id`; the source unwraps the file-level
lookup (panicking on an unknown file), modelled by `Option.bind`. -/
def get_range_id (c : LsifDataCache) (filename : String) (offset : Nat) : Option Nat :=
  (lookupA c.ranges filename).bind (fun m => lookupA m offset)

/-- Mirrors `LsifDataCache::cache_definition`: records the range id under
the definition's `(file, start_byte)`, appends it to the document's
definition ranges, stores the `DefinitionInfo`, and — only for `Exported`
definitions — INSERTS into `exported_defs`, replacing any existing binding
of the same name. -/
def cache_definition (c : LsifDataCache) (d : Definition) (document_id : Nat)
    (range_id : Nat) (result_set_id : Nat) : LsifDataCache :=
  let c1 := { c with
    ranges := updateA (fun m => insertA m d.location.range.start_byte range_id)
      c.ranges d.location.file_path }
  let c2 := { c1 with
    documents := updateA
      (fun di => { di with definition_range_ids := di.definition_range_ids ++ [range_id] })
      c1.documents d.location.file_path }
  let c3 := { c2 with
    def_infos := insertA c2.def_infos d.location
      { document_id := document_id, range_id := range_id,
        result_set_id := result_set_id, reference_range_ids := [] } }
  if d.kind = DefinitionKind.Exported then
    { c3 with exported_defs := insertA c3.exported_defs d.node_name d }
  else c3

/-- Mirrors `LsifDataCache::defs_with_name`: lookup in the exported table. -/
def defs_with_name (c : LsifDataCache) (name : String) : Option Definition :=
  lookupA c.exported_defs name

/-- Mirrors `LsifDataCache::get_definition_info`. -/
def get_definition_info (c : LsifDataCache) (l : Location) : Option DefinitionInfo :=
  lookupA c.def_infos l

/-- Mirrors `LsifDataCache::cache_reference`. Read off the source: the key
under which the range id is pushed into `DefinitionInfo.reference_range_ids`
is the id of the document of `def.location.file_path` — the DEFINITION's
document — while the id is appended to the reference-side document's
`reference_range_ids`. A missing document models the source's panic. -/
def cache_reference (c : LsifDataCache) (d : Definition) (r : Reference)
    (range_id : Nat) : LsifDataCache :=
  match lookupA c.documents d.location.file_path with
  | none => c
  | some ddoc =>
    let c1 := { c with
      def_infos := updateA
        (fun info => { info with
          reference_range_ids := pushAt info.reference_range_ids ddoc.id range_id })
        c.def_infos d.location }
    { c1 with
      documents := updateA
        (fun di => { di with reference_range_ids := di.reference_range_ids ++ [range_id] })
        c1.documents r.location.file_path }

/-- Mirrors `LsifDataCache::cache_reference_range`: records the emitted
range id under the reference's `(file, start_byte)`. -/
def cache_reference_range (c : LsifDataCache) (r : Reference)
    (range_id : Nat) : LsifDataCache :=
  { c with
    ranges := updateA (fun m => insertA m r.location.range.start_byte range_id)
      c.ranges r.location.file_path }

/-- Mirrors `cli::Opts` restricted to what the indexer reads. -/
structure Opts where
  project_root : String
  language : String
deriving DecidableEq

/-- Mirrors the `Indexer` struct (src/src/indexer/indexer.rs) together with
its emitter: the emitter state, the cached project id, the options and the
data cache. -/
structure Indexer where
  emitter : FileEmitter
  project_id : Nat
  opt : Opts
  cache : LsifDataCache
deriving DecidableEq

/-- Emits a vertex through the indexer's emitter. -/
def emitV (s : Indexer) (v : LVertex) : Nat × Indexer :=
  let p := emit_vertex s.emitter v
  (p.1, { s with emitter := p.2 })

/-- Emits an edge through the indexer's emitter. -/
def emitE (s : Indexer) (g : LEdge) : Nat × Indexer :=
  let p := emit_edge s.emitter g
  (p.1, { s with emitter := p.2 })

/-- Mirrors `Indexer::emit_metadata_and_project_vertex`: the metaData vertex
id is recorded as the project id. -/
def emit_metadata_and_project_vertex (s : Indexer) : Indexer :=
  let p := emitV s (LVertex.metaData "utf-16" s.opt.project_root)
  { p.2 with project_id := p.1 }

/-- Mirrors `Indexer::emit_documents` for a list of file paths: emits one
Document vertex per path and registers it in the cache (the uri is modelled
by the path itself). -/
def emit_documents (s : Indexer) (files : List String) : Indexer :=
  files.foldl
    (fun s filename =>
      let p := emitV s (LVertex.document filename)
      { p.2 with cache := cache_document p.2.cache filename p.1 })
    s

/-- Mirrors `Indexer::ensure_range_for`: reuse the cached range id for the
reference's `(file_path, start_byte)` when present; otherwise emit a new
Range vertex and cache its id. -/
def ensure_range_for (s : Indexer) (r : Reference) : Nat × Indexer :=
  match get_range_id s.cache r.location.file_path r.location.range.start_byte with
  | some range_id => (range_id, s)
  | none =>
      let p := emitV s (LVertex.range r.range)
      (p.1, { p.2 with cache := cache_reference_range p.2.cache r p.1 })

/-- Mirrors `Indexer::index_reference_to_definition`: ensure a range for the
reference, emit `next: refRange -> defResultSet`, and cache the result. The
source unwraps `get_definition_info`; its panic path is modelled by
returning the post-`ensure_range_for` state unchanged. -/
def index_reference_to_definition (s : Indexer) (d : Definition)
    (r : Reference) : Indexer :=
  let p := ensure_range_for s r
  match get_definition_info p.2.cache d.location with
  | none => p.2
  | some info =>
      let q := emitE p.2 (LEdge.next p.1 info.result_set_id)
      { q.2 with cache := cache_reference q.2.cache d r p.1 }

/-- Mirrors `Indexer::index_reference`: a resolved reference is indexed to
its definition; an unresolved one is resolved through the exported-name
table, or silently dropped. -/
def index_reference (s : Indexer) (r : Reference) : Indexer :=
  match r.rdef with
  | some d => index_reference_to_definition s d r
  | none =>
      match defs_with_name s.cache r.node_name with
      | some d => index_reference_to_definition s d r
      | none => s

/-- Mirrors `Indexer::index_definition`: emits the five vertices (range,
resultSet, definitionResult, hoverResult, moniker) and the five edges, then
caches the definition. Note the Range vertex is emitted UNCONDITIONALLY —
there is no lookup of a previously cached range id. The source stores
`def.comment` in the marked string; the analyzer always sets it to `Some`,
so a missing comment is modelled by the empty string. -/
def index_definition (s : Indexer) (d : Definition) : Indexer :=
  match get_document_id s.cache d.location.file_path with
  | none => s
  | some document_id =>
      let p1 := emitV s (LVertex.range d.range)
      let range_id := p1.1
      let p2 := emitV p1.2 LVertex.resultSet
      let result_set_id := p2.1
      let p3 := emitV p2.2 LVertex.definitionResult
      let def_result_id := p3.1
      let p4 := emitV p3.2 (LVertex.hoverResult
        [{ language := s.opt.language, value := d.comment.getD "",
           is_raw_string := true }])
      let hover_result_id := p4.1
      let p5 := emitV p4.2 (LVertex.moniker
        (if d.kind = DefinitionKind.Exported then "exported" else "local")
        "zas" (d.location.file_name ++ ":" ++ d.node_name))
      let moniker_id := p5.1
      let q1 := emitE p5.2 (LEdge.next range_id result_set_id)
      let q2 := emitE q1.2 (LEdge.definitionEdge result_set_id def_result_id)
      let q3 := emitE q2.2 (LEdge.item ItemProperty.neither def_result_id
        [range_id] document_id)
      let q4 := emitE q3.2 (LEdge.monikerEdge result_set_id moniker_id)
      let q5 := emitE q4.2 (LEdge.hover result_set_id hover_result_id)
      { q5.2 with cache :=
          cache_definition q5.2.cache d document_id range_id result_set_id }

/-- Mirrors `Indexer::emit_contains`: for every document with any ranges,
emit `contains: document -> reference_range_ids ++ definition_range_ids`
(reference ids first, as in the source's `concat`), then the project-level
contains edge over all document ids. -/
def emit_contains (s : Indexer) : Indexer :=
  let s1 := (s.cache.documents.map Prod.snd).foldl
    (fun s di =>
      let all_range_ids := di.reference_range_ids ++ di.definition_range_ids
      if all_range_ids = [] then s
      else (emitE s (LEdge.contains di.id all_range_ids)).2)
    s
  (emitE s1 (LEdge.contains s1.project_id
    (s1.cache.documents.map (fun p => p.2.id)))).2

/-- Mirrors `Indexer::link_items_to_definitions` (driven by
`link_reference_results_to_ranges`): for every `DefinitionInfo`, emit a
ReferenceResult vertex, the `textDocument/references` edge, the `def_item`
edge, and one `ref_item` edge per entry of the per-document map. -/
def link_items_to_definitions (s : Indexer) : Indexer :=
  (s.cache.def_infos.map Prod.snd).foldl
    (fun s d =>
      let p := emitV s LVertex.referenceResult
      let ref_result_id := p.1
      let q1 := emitE p.2 (LEdge.referencesEdge d.result_set_id ref_result_id)
      let q2 := emitE q1.2 (LEdge.item ItemProperty.definitions ref_result_id
        [d.range_id] d.document_id)
      d.reference_range_ids.foldl
        (fun s pr =>
          (emitE s (LEdge.item ItemProperty.references ref_result_id pr.2 pr.1)).2)
        q2.2)
    s

/-- Mirrors `get_capture_names`'s helper work on one drained segment
(indexer.rs): find the first `@`, drop through it, and take the identifier
up to the first `'\n'`, `' '` or `')'`. The source unwraps both `find`s;
the panic paths are modelled by `Option`. -/
def capture_name_in (segment : List Char) : Option String :=
  (segment.findIdx? (fun c => c = '@')).bind (fun query_start =>
    let drained := segment.drop (query_start + 1)
    (drained.findIdx? (fun c => c = '\n' || c = ' ' || c = ')')).map
      (fun query_end => String.mk (drained.take query_end)))

/-- Mirrors `get_capture_names` (indexer.rs): for each pattern index, drain
the query source between this pattern's start byte and the next pattern's
start byte (to the end of the source for the last pattern) and extract the
capture name from that segment, in pattern order. -/
def get_capture_names (query_src : List Char) : List Nat → List (Option String)
  | [] => []
  | [start_byte] => [capture_name_in (query_src.drop start_byte)]
  | start_byte :: next_start :: rest =>
      capture_name_in ((query_src.drop start_byte).take (next_start - start_byte)) ::
        get_capture_names query_src (next_start :: rest)

/-- Restates the spec sentence for `get_capture_names` per pattern index,
for refinement comparison: the segment runs from `start_byte_for_pattern(i)`
to the next pattern's start byte, or to the end of the source for the last
pattern. -/
def capture_name_spec (query_src : List Char) (start_bytes : List Nat)
    (i : Nat) : Option String :=
  let lo := start_bytes.getD i 0
  let hi := if i + 1 < start_bytes.length then start_bytes.getD (i + 1) 0
            else query_src.length
  capture_name_in ((query_src.drop lo).take (hi - lo))

/-- Counts the Range vertices among the emitted records. -/
def range_vertex_count (l : List Entry) : Nat :=
  (l.filter (fun e =>
    match e.data with
    | Element.vertex (LVertex.range _) => true
    | _ => false)).length

/-- Collects the contents lists of the hoverResult vertices among the
emitted records, in emission order. -/
def hover_values (l : List Entry) : List (List MarkedString) :=
  l.filterMap (fun e =>
    match e.data with
    | Element.vertex (LVertex.hoverResult ms) => some ms
    | _ => none)

/-- Collects the `(out_v, in_v)` pairs of the `next` edges among the
emitted records, in emission order. -/
def next_edges (l : List Entry) : List (Nat × Nat) :=
  l.filterMap (fun e =>
    match e.data with
    | Element.edge (LEdge.next o i) => some (o, i)
    | _ => none)

/-- Builds a range whose points track the byte offsets on row 0; concrete
inputs below use it. -/
def mkRange (a b : Nat) : TSRange :=
  { start_byte := a, end_byte := b,
    start_point := { row := 0, column := a },
    end_point := { row := 0, column := b } }

/-- Claim C6, concrete witness scope: a scope that does not contain the
witness node's range. -/
def scopeW6 : Scope := { range := mkRange 5 6 }

/-- Claim C6, concrete witness node. -/
def nodeW6 : TSNode := { range := mkRange 0 99, kind := "identifier" }

/-- Claim C2, concrete witness state: one definition of `x` at a range
different from the witness reference node. -/
def defsW2 : List (String × List Definition) :=
  [("x", [{ location := { range := mkRange 4 5, file_path := "a.ts" },
            node_name := "x", comment := some "k",
            kind := DefinitionKind.Exported }])]

/-- Claim C2, concrete witness node (the reference occurrence of `x`). -/
def nodeW2 : TSNode := { range := mkRange 8 9, kind := "identifier" }

/-- Claim C2, counterexample state: the defining occurrence of `x` at bytes
4..5 was also matched as a definition and cached before the reference at
the same range is processed. -/
def defsS2 : List (String × List Definition) :=
  [("x", [{ location := { range := mkRange 4 5, file_path := "a.ts" },
            node_name := "x", comment := some "k",
            kind := DefinitionKind.Exported }])]

/-- Claim C2, counterexample node: the reference occurrence at the SAME
range 4..5 as the cached definition. -/
def nodeS2 : TSNode := { range := mkRange 4 5, kind := "identifier" }

/-- Claim C3, witness definitions: the S2 scenario `const x = 1` followed
by `function f(x) \x7b return x \x7d`; the top-level `x` is exported, the
parameter `x` is scoped to the function body, and the parameter was cached
after the const. -/
def constX : Definition :=
  { location := { range := mkRange 6 7, file_path := "index.ts" },
    node_name := "x", comment := some "k1", kind := DefinitionKind.Exported }

/-- Claim C3, witness parameter definition scoped to bytes 11..38. -/
def paramX : Definition :=
  { location := { range := mkRange 23 24, file_path := "index.ts" },
    node_name := "x", comment := some "k2",
    kind := DefinitionKind.Scoped (mkRange 11 38) }

/-- Claim C3, witness reference: the `x` of `return x`, inside the
parameter's scope. -/
def refW3 : Reference :=
  { location := { range := mkRange 35 36, file_path := "index.ts" },
    node_name := "x", rdef := none }

/-- Claim C3, counterexample definitions: a definition in an INNER scope
(bytes 10..20) cached before a definition in an OUTER scope (bytes 0..30);
both scopes contain the reference at bytes 12..13. This arises when the
outer-scope definition appears later in the file than the inner scope. -/
def dInner3 : Definition :=
  { location := { range := mkRange 11 12, file_path := "a.ts" },
    node_name := "x", comment := some "k",
    kind := DefinitionKind.Scoped (mkRange 10 20) }

/-- Claim C3, counterexample outer-scope definition, cached last. -/
def dOuter3 : Definition :=
  { location := { range := mkRange 25 26, file_path := "a.ts" },
    node_name := "x", comment := some "k",
    kind := DefinitionKind.Scoped (mkRange 0 30) }

/-- Claim C3, counterexample reference at bytes 12..13. -/
def refC3 : Reference :=
  { location := { range := mkRange 12 13, file_path := "a.ts" },
    node_name := "x", rdef := none }

/-- Shared options for the concrete indexer runs below. -/
def optsTS : Opts := { project_root := "/proj", language := "TypeScript" }

/-- Shared initial indexer state: fresh emitter, empty cache. -/
def init_indexer : Indexer :=
  { emitter := FileEmitter.new, project_id := 0, opt := optsTS,
    cache := LsifDataCache.empty }

/-- Concrete pipeline start with one document `a.ts`: the metaData vertex
gets id 1 and the document vertex id 2, as in a real run. -/
def base1 : Indexer :=
  emit_documents (emit_metadata_and_project_vertex init_indexer) ["a.ts"]

/-- Concrete pipeline start with documents `a.ts` (vertex id 2) and `b.ts`
(vertex id 3). -/
def base2 : Indexer :=
  emit_documents (emit_metadata_and_project_vertex init_indexer) ["a.ts", "b.ts"]

/-- Claim C4, first-indexed exported definition of `foo`, in `a.ts`. -/
def d1C4 : Definition :=
  { location := { range := mkRange 6 9, file_path := "a.ts" },
    node_name := "foo", comment := some "k1", kind := DefinitionKind.Exported }

/-- Claim C4, second-indexed exported definition of `foo`, in `b.ts`. -/
def d2C4 : Definition :=
  { location := { range := mkRange 6 9, file_path := "b.ts" },
    node_name := "foo", comment := some "k2", kind := DefinitionKind.Exported }

/-- Claim C4, a reference to `foo` that single-file analysis left
unresolved, so the indexer resolves it through the exported-name table. -/
def refC4 : Reference :=
  { location := { range := mkRange 30 33, file_path := "a.ts" },
    node_name := "foo", rdef := none }

/-- Claim C4, the counterexample run: both exported definitions indexed
(in order d1C4 then d2C4, as drained from the definition channel), then
the unresolved reference. -/
def s3C4 : Indexer :=
  index_reference (index_definition (index_definition base2 d1C4) d2C4) refC4

/-- Claim C4, witness state whose cache is literally a double
`cache_definition` of the two same-name exported definitions. -/
def sW4 : Indexer :=
  { emitter := FileEmitter.new, project_id := 0, opt := optsTS,
    cache := cache_definition (cache_definition LsifDataCache.empty d1C4 1 2 3)
      d2C4 1 4 5 }

/-- Claim C5, cache with two documents: `a.ts` is document 1, `b.ts` is
document 2. -/
def cC5a : LsifDataCache :=
  cache_document (cache_document LsifDataCache.empty "a.ts" 1) "b.ts" 2

/-- Claim C5, the definition, located in `a.ts` (document 1). -/
def dC5 : Definition :=
  { location := { range := mkRange 6 9, file_path := "a.ts" },
    node_name := "foo", comment := some "k", kind := DefinitionKind.Exported }

/-- Claim C5, cache after indexing the definition (range id 10, result set
id 11). -/
def cC5 : LsifDataCache := cache_definition cC5a dC5 1 10 11

/-- Claim C5, a CROSS-FILE reference to `foo` located in `b.ts`
(document 2). -/
def refC5 : Reference :=
  { location := { range := mkRange 40 43, file_path := "b.ts" },
    node_name := "foo", rdef := some dC5 }

/-- Restates the claim's fallback hover text for refinement comparison:
the node's kind, a space, and the text from the definition's start byte to
the END OF ITS LINE — up to the first newline after the start byte, or to
the end of the file when no newline follows. -/
def line_of_claim (content : List Char) (node : TSNode) : String :=
  let start_byte := node.range.start_byte
  let end_byte :=
    (((content.drop start_byte).findIdx? (fun c => c = '\n')).map
      (fun i => i + start_byte)).getD content.length
  node.kind ++ " " ++
    String.mk ((content.drop start_byte).take (end_byte - start_byte))

/-- Claim C7, counterexample content: the definition sits on the final
line, which has NO trailing newline. -/
def contentC7 : List Char := String.toList "const x = 1"

/-- Claim C7, node of the defining identifier `x` at bytes 6..7. -/
def nodeC7 : TSNode := { range := mkRange 6 7, kind := "identifier" }

/-- Claim C7, witness content: the same line WITH a trailing newline. -/
def contentW7 : List Char := String.toList "const x = 1\n"

/-- Claim C8, witness query source with two patterns. -/
def srcW8 : List Char := String.toList "(a) @scope\n(b) @comment\n"

/-- Claim C8, witness pattern start bytes: pattern 0 starts at byte 0,
pattern 1 at byte 11. -/
def sbW8 : List Nat := [0, 11]

/-- Claim C1, witness reference at `(a.ts, byte 5)`, bytes 5..9. -/
def r1W1 : Reference :=
  { location := { range := mkRange 5 9, file_path := "a.ts" },
    node_name := "x", rdef := none }

/-- Claim C1, second witness reference at the same `(a.ts, byte 5)` pair,
bytes 5..6. -/
def r2W1 : Reference :=
  { location := { range := mkRange 5 6, file_path := "a.ts" },
    node_name := "x", rdef := none }

/-- Claim C1, counterexample definition at `(a.ts, byte 6)`, bytes 6..7. -/
def d1aC1 : Definition :=
  { location := { range := mkRange 6 7, file_path := "a.ts" },
    node_name := "x", comment := some "k", kind := DefinitionKind.Exported }

/-- Claim C1, second counterexample definition at the same `(a.ts, byte 6)`
pair, bytes 6..9. -/
def d1bC1 : Definition :=
  { location := { range := mkRange 6 9, file_path := "a.ts" },
    node_name := "x", comment := some "k",
    kind := DefinitionKind.Scoped (mkRange 0 30) }

/-- Claim C10, witness definition of `foo` in `a.ts`. -/
def dC10 : Definition :=
  { location := { range := mkRange 6 9, file_path := "a.ts" },
    node_name := "foo", comment := some "k", kind := DefinitionKind.Exported }

/-- Claim C10, witness state: documents `a.ts` (id 2) and `b.ts` (id 3),
then the definition indexed (range vertex 4, result set 5). -/
def sDefC10 : Indexer := index_definition base2 dC10

/-- Claim C10, first resolved reference in `b.ts` at byte 40, bytes
40..43. -/
def r1C10 : Reference :=
  { location := { range := mkRange 40 43, file_path := "b.ts" },
    node_name := "foo", rdef := some dC10 }

/-- Claim C10, second (distinct) resolved reference at the same
`(b.ts, byte 40)` pair, bytes 40..45. -/
def r2C10 : Reference :=
  { location := { range := mkRange 40 45, file_path := "b.ts" },
    node_name := "foo", rdef := some dC10 }

/-- Claim C10, the cached `DefinitionInfo` of `dC10` in `sDefC10`. -/
def infoC10 : DefinitionInfo :=
  { document_id := 2, range_id := 4, result_set_id := 5,
    reference_range_ids := [] }

/-- Claim C10, the cached `DocumentInfo` of `a.ts` in `sDefC10`. -/
def ddocC10 : DocumentInfo :=
  { id := 2, definition_range_ids := [4], reference_range_ids := [] }

/-- Claim C10, the cached `DocumentInfo` of `b.ts` in `sDefC10`. -/
def rdocC10 : DocumentInfo :=
  { id := 3, definition_range_ids := [], reference_range_ids := [] }

section AssocLemmas

variable {α β : Type} [DecidableEq α]

theorem lookupA_insertA (l : List (α × β)) (k : α) (v : β) (k' : α) :
    lookupA (insertA l k v) k' = if k = k' then some v else lookupA l k' := by
  induction l with
  | nil => simp [insertA, lookupA]
  | cons p rest ih =>
      obtain ⟨pk, pv⟩ := p
      by_cases hpk : pk = k
      · subst hpk
        by_cases hk' : pk = k'
        · subst hk'
          simp [insertA, lookupA]
        · simp [insertA, lookupA, hk']
      · by_cases hpk' : pk = k'
        · subst hpk'
          have hkp : ¬ k = pk := fun h => hpk h.symm
          simp [insertA, lookupA, hpk, hkp]
        · simp [insertA, lookupA, hpk, hpk', ih]

theorem lookupA_updateA (f : β → β) (l : List (α × β)) (k k' : α) :
    lookupA (updateA f l k) k' =
      if k = k' then (lookupA l k').map f else lookupA l k' := by
  induction l with
  | nil => simp [updateA, lookupA]
  | cons p rest ih =>
      obtain ⟨pk, pv⟩ := p
      by_cases hpk : pk = k
      · subst hpk
        by_cases hk' : pk = k'
        · subst hk'
          simp [updateA, lookupA]
        · simp [updateA, lookupA, hk']
      · by_cases hpk' : pk = k'
        · subst hpk'
          have hkp : ¬ k = pk := fun h => hpk h.symm
          simp [updateA, lookupA, hpk, hkp]
        · simp [updateA, lookupA, hpk, hpk', ih]

theorem lookupA_pushAt (l : List (α × List β)) (k : α) (v : β) (k' : α) :
    lookupA (pushAt l k v) k' =
      if k = k' then some ((lookupA l k).getD [] ++ [v]) else lookupA l k' := by
  induction l with
  | nil => simp [pushAt, lookupA]
  | cons p rest ih =>
      obtain ⟨pk, pv⟩ := p
      by_cases hpk : pk = k
      · subst hpk
        by_cases hk' : pk = k'
        · subst hk'
          simp [pushAt, lookupA]
        · simp [pushAt, lookupA, hk']
      · by_cases hpk' : pk = k'
        · subst hpk'
          have hkp : ¬ k = pk := fun h => hpk h.symm
          simp [pushAt, lookupA, hpk, hkp]
        · simp [pushAt, lookupA, hpk, hpk', ih]

theorem lookupA_mem {l : List (α × β)} {k : α} {v : β}
    (h : lookupA l k = some v) : (k, v) ∈ l := by
  induction l with
  | nil => simp [lookupA] at h
  | cons p rest ih =>
      obtain ⟨pk, pv⟩ := p
      by_cases hpk : pk = k
      · subst hpk
        have hv : pv = v := by simpa [lookupA] using h
        subst hv
        exact List.mem_cons_self _ _
      · simp only [lookupA, if_neg hpk] at h
        exact List.mem_cons_of_mem _ (ih h)

theorem find?_append_left_none {p : α → Bool} {l1 : List α}
    (h : ∀ x ∈ l1, p x = false) (l2 : List α) :
    (l1 ++ l2).find? p = l2.find? p := by
  induction l1 with
  | nil => simp
  | cons a t ih =>
      have ha : p a = false := h a (List.mem_cons_self _ _)
      simp only [List.cons_append, List.find?, ha]
      exact ih (fun x hx => h x (List.mem_cons_of_mem _ hx))

end AssocLemmas

/-- C6: a `definition.scoped` match whose range is contained in no recorded
scope does not abort the analysis: `definition_from` is total and builds the
definition with kind `Scoped` of the zero range (zero bytes, zero points),
so analysis of the file continues. -/
theorem C6_missing_scope_falls_back_to_zero_range
    (scopes : List Scope) (content : List Char) (filename : String)
    (node : TSNode) (last_comment : Option String)
    (h : find_enclosing_scope scopes node.range = none) :
    (definition_from scopes content filename node true last_comment).kind =
      DefinitionKind.Scoped
        { start_byte := 0, end_byte := 0,
          start_point := { row := 0, column := 0 },
          end_point := { row := 0, column := 0 } } := by
  simp [definition_from, h, zero_scope]

/-- Witness for C6 at a concrete input: the single recorded scope does not
contain the node, and the built definition carries the zero scope. -/
theorem C6_missing_scope_falls_back_to_zero_range_witness :
    find_enclosing_scope [scopeW6] nodeW6.range = none ∧
    (definition_from [scopeW6] [] "a.ts" nodeW6 true none).kind =
      DefinitionKind.Scoped
        { start_byte := 0, end_byte := 0,
          start_point := { row := 0, column := 0 },
          end_point := { row := 0, column := 0 } } :=
  ⟨by decide,
   C6_missing_scope_falls_back_to_zero_range [scopeW6] [] "a.ts" nodeW6 none
     (by decide)⟩

/-- C2 (amended): the candidate search of `reference_from` skips every
definition whose range equals the reference's own range, so the resolution
computed by `reference_from` itself never points at the reference's own
range. (The analyzer then re-resolves through `try_find_def_of`, which has
no such skip; see the counterexample.) -/
theorem C2_reference_from_skips_own_range
    (defs : List (String × List Definition)) (content : List Char)
    (filename : String) (node : TSNode) (d : Definition)
    (h : (reference_from defs content filename node).rdef = some d) :
    ¬ d.location.range = node.range := by
  have hp := List.find?_some (by simpa [reference_from] using h)
  have hand := (Bool.and_eq_true _ _).mp hp
  have h1 : ¬ d.location.range = node.range := by simpa using hand.1
  exact h1

/-- Witness for C2 at a concrete input: `reference_from` resolves the
reference and the selected definition's range differs from the node's. -/
theorem C2_reference_from_skips_own_range_witness :
    (reference_from defsW2 (String.toList "let x = x") "a.ts" nodeW2).rdef =
      some { location := { range := mkRange 4 5, file_path := "a.ts" },
             node_name := "x", comment := some "k",
             kind := DefinitionKind.Exported } ∧
    ¬ ({ location := { range := mkRange 4 5, file_path := "a.ts" },
         node_name := "x", comment := some "k",
         kind := DefinitionKind.Exported } : Definition).location.range =
        nodeW2.range := by
  refine ⟨by decide, ?_⟩
  exact C2_reference_from_skips_own_range defsW2 (String.toList "let x = x")
    "a.ts" nodeW2 _ (by decide)

/-- Counterexample to C2 as stated: after the analyzer's per-reference step
(`reference_from` immediately followed by the unconditional
`try_find_def_of`, as in `run_analysis`), the produced reference IS
resolved to the definition located at its own range — `try_find_def_of`
overwrites the skip-respecting result of `reference_from`. -/
theorem C2_counterexample :
    (run_analysis_reference_step defsS2 (String.toList "let x = 1") "a.ts"
        nodeS2).rdef =
      some { location := { range := mkRange 4 5, file_path := "a.ts" },
             node_name := "x", comment := some "k",
             kind := DefinitionKind.Exported } ∧
    ({ location := { range := mkRange 4 5, file_path := "a.ts" },
       node_name := "x", comment := some "k",
       kind := DefinitionKind.Exported } : Definition).location.range =
      nodeS2.range := by
  refine ⟨by decide, by decide⟩

/-- C3 (amended): local resolution (`try_find_def_of`) selects the MOST
RECENTLY CACHED definition among the in-scope candidates of the
reference's name: whenever every definition cached after `d` in the
per-name list fails the name-and-scope test and `d` passes it, `d` is
selected; the innermost-scope definition wins exactly when it is the
latest-cached in-scope one, as in the S2 shadowing scenario. -/
theorem C3_resolution_picks_most_recently_cached
    (defs : List (String × List Definition)) (r : Reference)
    (l1 l2 : List Definition) (d : Definition)
    (hl : lookupA defs r.node_name = some (l1 ++ d :: l2))
    (hd : (decide (d.node_name = r.node_name) &&
            def_is_in_scope d.kind r.location.range) = true)
    (h2 : ∀ d' ∈ l2,
      (decide (d'.node_name = r.node_name) &&
        def_is_in_scope d'.kind r.location.range) = false) :
    (try_find_def_of defs r).rdef = some d := by
  have hrev : (l1 ++ d :: l2).reverse = l2.reverse ++ d :: l1.reverse := by
    simp
  simp only [try_find_def_of, hl, Option.some_bind, hrev]
  rw [find?_append_left_none (fun x hx => h2 x (by simpa using hx))]
  simp [List.find?, hd]

/-- Witness for C3 at the S2 scenario: the reference inside the function
body resolves to the shadowing parameter (the latest-cached in-scope
definition), not the top-level const. -/
theorem C3_resolution_picks_most_recently_cached_witness :
    (try_find_def_of [("x", [constX, paramX])] refW3).rdef = some paramX ∧
    ¬ paramX = constX :=
  ⟨C3_resolution_picks_most_recently_cached [("x", [constX, paramX])] refW3
      [constX] [] paramX (by decide) (by decide) (fun d' hd' => by simp at hd'),
   by decide⟩

/-- Counterexample to C3 as stated: with the per-name list
`[dInner3, dOuter3]`, resolution selects `dOuter3` whose scope starts at 0,
even though `dInner3`'s containing scope starts at 10 — the claim's
"largest start_byte among the containing scopes" rule would select
`dInner3`. The code picks the latest-cached in-scope definition instead. -/
theorem C3_counterexample :
    ¬ (∀ dsel,
        (try_find_def_of [("x", [dInner3, dOuter3])] refC3).rdef = some dsel →
        ∀ d' ∈ (lookupA [("x", [dInner3, dOuter3])] refC3.node_name).getD [],
          ∀ s', d'.kind = DefinitionKind.Scoped s' →
            s'.contains refC3.location.range = true →
            ∀ ssel, dsel.kind = DefinitionKind.Scoped ssel →
              s'.start_byte ≤ ssel.start_byte) := by
  intro h
  have h10 := h dOuter3 (by decide) dInner3 (by decide) (mkRange 10 20)
    (by decide) (by decide) (mkRange 0 30) (by decide)
  exact absurd h10 (by decide)

/-- C4 (amended): the exported-name table keeps the LAST definition indexed
for a name — `HashMap::insert` in `cache_definition` replaces the earlier
binding — so every subsequent cross-file reference resolved through the
table by name adopts the last-indexed definition. -/
theorem C4_exported_table_last_write_wins
    (c : LsifDataCache) (d1 d2 : Definition)
    (doc1 rid1 rs1 doc2 rid2 rs2 : Nat)
    (h1 : d1.kind = DefinitionKind.Exported)
    (h2 : d2.kind = DefinitionKind.Exported)
    (hn : d1.node_name = d2.node_name) :
    defs_with_name
        (cache_definition (cache_definition c d1 doc1 rid1 rs1) d2 doc2 rid2 rs2)
        d2.node_name = some d2 ∧
    ∀ (s : Indexer) (r : Reference),
      s.cache =
        cache_definition (cache_definition c d1 doc1 rid1 rs1) d2 doc2 rid2 rs2 →
      r.rdef = none → r.node_name = d2.node_name →
      index_reference s r = index_reference_to_definition s d2 r := by
  have hlast : defs_with_name
      (cache_definition (cache_definition c d1 doc1 rid1 rs1) d2 doc2 rid2 rs2)
      d2.node_name = some d2 := by
    simp [cache_definition, defs_with_name, h1, h2, lookupA_insertA]
  refine ⟨hlast, ?_⟩
  intro s r hc hr hn2
  simp [index_reference, hr, hc, hn2, hlast]

/-- Witness for C4 at a concrete input: after caching `d1C4` then `d2C4`
(both exported, both named `foo`), the table answers `d2C4`, and indexing
the unresolved reference `refC4` resolves it to `d2C4`. -/
theorem C4_exported_table_last_write_wins_witness :
    defs_with_name sW4.cache d2C4.node_name = some d2C4 ∧
    index_reference sW4 refC4 = index_reference_to_definition sW4 d2C4 refC4 := by
  have h := C4_exported_table_last_write_wins LsifDataCache.empty d1C4 d2C4
    1 2 3 1 4 5 rfl rfl rfl
  exact ⟨h.1, h.2 sW4 refC4 rfl rfl rfl⟩

/-- Counterexample to C4 as stated: in the concrete run `s3C4`, the first
definition's result set has id 5 and the second's id 15; the cross-file
reference's `next` edge is `(24, 15)` — it adopts the SECOND-indexed
definition, not the first-indexed one as the claim requires. -/
theorem C4_counterexample :
    (get_definition_info s3C4.cache d1C4.location).map
      (fun i => i.result_set_id) = some 5 ∧
    (get_definition_info s3C4.cache d2C4.location).map
      (fun i => i.result_set_id) = some 15 ∧
    next_edges s3C4.emitter.sink = [(4, 5), (14, 15), (24, 15)] ∧
    ¬ (15 : Nat) = 5 := by
  refine ⟨by decide, by decide, by decide, by decide⟩

/-- C5: evaluating `cache_reference` at a cross-file reference shows the
range id is recorded under the id of the document containing the
DEFINITION (document 1, `a.ts`), not under the referencing document's id
(document 2, `b.ts`) as the claim — and the spec — require. The reference
side of the same call does use the referencing document. -/
theorem C5_reference_grouped_under_definition_document :
    dC5.location.file_path = "a.ts" ∧
    refC5.location.file_path = "b.ts" ∧
    get_document_id cC5 "a.ts" = some 1 ∧
    get_document_id cC5 "b.ts" = some 2 ∧
    (lookupA (cache_reference cC5 dC5 refC5 42).def_infos dC5.location).map
      (fun i => i.reference_range_ids) = some [(1, [42])] ∧
    (lookupA (cache_reference cC5 dC5 refC5 42).documents "b.ts").map
      (fun di => di.reference_range_ids) = some [42] ∧
    ¬ (1 : Nat) = 2 := by
  refine ⟨rfl, rfl, by decide, by decide, by decide, by decide, by decide⟩

/-- C7 (amended): a definition extracted with no pending comment yields
exactly one hoverResult vertex containing a single marked string whose
value is the node's kind, a space, and the `line_text` slice — the text
from the start byte to the first newline after it, which is EMPTY when no
newline follows — and that value is never the empty string. -/
theorem C7_hover_is_single_kind_line_string
    (s : Indexer) (scopes : List Scope) (content : List Char)
    (filename : String) (node : TSNode) (is_scoped : Bool) (document_id : Nat)
    (hdoc : get_document_id s.cache filename = some document_id) :
    hover_values ((index_definition s
        (definition_from scopes content filename node is_scoped none)).emitter.sink) =
      hover_values s.emitter.sink ++
        [[{ language := s.opt.language,
            value := node.kind ++ " " ++ line_text content node,
            is_raw_string := true }]] ∧
    ¬ (node.kind ++ " " ++ line_text content node) = "" := by
  constructor
  · have hd : get_document_id s.cache
        (definition_from scopes content filename node is_scoped
          none).location.file_path = some document_id := hdoc
    simp [index_definition, hd, hdoc, emitV, emitE, emit_vertex, emit_edge,
      next_id, hover_values, definition_from, line_of, List.filterMap_append]
  · intro h
    have hlen := congrArg String.length h
    rw [String.length_append, String.length_append] at hlen
    have hone : String.length " " = 1 := rfl
    rw [hone] at hlen
    simp at hlen

/-- Witness for C7 at a concrete input: indexing the definition of `x` in
`const x = 1` (with a trailing newline) with no pending comment emits one
hoverResult whose single marked string is the synthesized fallback, and
the fallback is non-empty. -/
theorem C7_hover_is_single_kind_line_string_witness :
    hover_values ((index_definition base1
        (definition_from [] contentW7 "a.ts" nodeC7 false none)).emitter.sink) =
      hover_values base1.emitter.sink ++
        [[{ language := base1.opt.language,
            value := nodeC7.kind ++ " " ++ line_text contentW7 nodeC7,
            is_raw_string := true }]] ∧
    ¬ (nodeC7.kind ++ " " ++ line_text contentW7 nodeC7) = "" :=
  C7_hover_is_single_kind_line_string base1 [] contentW7 "a.ts" nodeC7 false 2
    (by decide)

/-- Counterexample to C7 as stated: when the definition's line has no
trailing newline, `line_of` produces "identifier " — the kind, the space
and NO line text (`unwrap_or(start_byte)` yields an empty slice) — whereas
the claim's "text to the end of its line" (`line_of_claim`) would be
"identifier x = 1". The two disagree at this input. -/
theorem C7_counterexample :
    hover_values ((index_definition base1
        (definition_from [] contentC7 "a.ts" nodeC7 false none)).emitter.sink) =
      [[{ language := "TypeScript", value := "identifier ",
          is_raw_string := true }]] ∧
    line_of_claim contentC7 nodeC7 = "identifier x = 1" ∧
    ¬ ("identifier " : String) = "identifier x = 1" := by
  refine ⟨by decide, by decide, by decide⟩

/-- Shows the drop-then-take of the full remaining length is the drop
itself; used for the last pattern's segment in C8. -/
theorem take_length_sub_drop {γ : Type} (l : List γ) (n : Nat) :
    (l.drop n).take (l.length - n) = l.drop n := by
  rw [← List.length_drop]
  exact List.take_length _

/-- Shows the index shift of `capture_name_spec` on a cons cell with at
least two start bytes. -/
theorem capture_name_spec_shift (query_src : List Char) (b b2 : Nat)
    (rest2 : List Nat) (j : Nat) :
    capture_name_spec query_src (b :: b2 :: rest2) (j + 1) =
      capture_name_spec query_src (b2 :: rest2) j := by
  by_cases hc : j + 1 < (b2 :: rest2).length
  · have hc' : j + 1 + 1 < (b :: b2 :: rest2).length := by
      simpa using Nat.succ_lt_succ hc
    simp [capture_name_spec, hc, hc', List.getD_cons_succ]
  · have hc' : ¬ j + 1 + 1 < (b :: b2 :: rest2).length := by
      intro h
      exact hc (by simpa using Nat.lt_of_succ_lt_succ h)
    simp [capture_name_spec, hc, hc', List.getD_cons_succ]

/-- C8: `get_capture_names` returns one entry per pattern, in pattern
order, and the entry at index `i` is exactly the extraction the claim
describes — the identifier after the first `@` in the source between
`start_byte_for_pattern(i)` and the next pattern's start byte (the end of
the source for the last pattern), ending at the first `' '`, `')'` or
newline. -/
theorem C8_capture_names_in_pattern_order (query_src : List Char)
    (start_bytes : List Nat) :
    (get_capture_names query_src start_bytes).length = start_bytes.length ∧
    ∀ i, i < start_bytes.length →
      (get_capture_names query_src start_bytes).getD i none =
        capture_name_spec query_src start_bytes i := by
  induction start_bytes with
  | nil => exact ⟨rfl, fun i hi => absurd hi (by simp)⟩
  | cons b rest ih =>
      cases rest with
      | nil =>
          refine ⟨rfl, ?_⟩
          intro i hi
          have hi0 : i = 0 := Nat.lt_one_iff.mp (by simpa using hi)
          subst hi0
          show capture_name_in (query_src.drop b) =
            capture_name_in ((query_src.drop b).take (query_src.length - b))
          rw [take_length_sub_drop]
      | cons b2 rest2 =>
          obtain ⟨ihlen, ihidx⟩ := ih
          constructor
          · simpa [get_capture_names] using ihlen
          · intro i hi
            cases i with
            | zero =>
                have hcond : 0 + 1 < (b :: b2 :: rest2).length := by simp
                simp [get_capture_names, capture_name_spec, hcond,
                  List.getD_cons_succ, List.getD_cons_zero]
            | succ j =>
                have hj : j < (b2 :: rest2).length := by
                  simpa using Nat.lt_of_succ_lt_succ hi
                rw [capture_name_spec_shift]
                simpa [get_capture_names, List.getD_cons_succ] using ihidx j hj

/-- Witness for C8 at a concrete two-pattern query source: both entries
match the claim's extraction, and the extraction yields the expected
names. -/
theorem C8_capture_names_in_pattern_order_witness :
    (get_capture_names srcW8 sbW8).getD 0 none = capture_name_spec srcW8 sbW8 0 ∧
    (get_capture_names srcW8 sbW8).getD 1 none = capture_name_spec srcW8 sbW8 1 ∧
    capture_name_spec srcW8 sbW8 0 = some "scope" ∧
    capture_name_spec srcW8 sbW8 1 = some "comment" :=
  ⟨(C8_capture_names_in_pattern_order srcW8 sbW8).2 0 (by decide),
   (C8_capture_names_in_pattern_order srcW8 sbW8).2 1 (by decide),
   by decide, by decide⟩

/-- Characterizes `run_emits` from an arbitrary emitter state: the returned
ids are the consecutive integers after the current counter, the sink gains
exactly one record per call carrying that id and the element, and the
counter advances by the number of calls. -/
theorem run_emits_general (ops : List Element) : ∀ (e : FileEmitter),
    (run_emits e ops).1 = List.range' (e.id + 1) ops.length ∧
    (run_emits e ops).2.sink = e.sink ++
      (List.zip (List.range' (e.id + 1) ops.length) ops).map
        (fun p => { id := p.1, data := p.2 }) ∧
    (run_emits e ops).2.id = e.id + ops.length := by
  induction ops with
  | nil => intro e; simp [run_emits]
  | cons el rest ih =>
      intro e
      cases el with
      | vertex v =>
          obtain ⟨ih1, ih2, ih3⟩ := ih
            { id := e.id + 1,
              sink := e.sink ++ [{ id := e.id + 1, data := Element.vertex v }] }
          refine ⟨?_, ?_, ?_⟩
          · simp [run_emits, emit_vertex, next_id, ih1, List.range'_succ]
          · simp [run_emits, emit_vertex, next_id, ih2, ih1, List.range'_succ]
          · simp [run_emits, emit_vertex, next_id, ih3]
            omega
      | edge g =>
          obtain ⟨ih1, ih2, ih3⟩ := ih
            { id := e.id + 1,
              sink := e.sink ++ [{ id := e.id + 1, data := Element.edge g }] }
          refine ⟨?_, ?_, ?_⟩
          · simp [run_emits, emit_edge, next_id, ih1, List.range'_succ]
          · simp [run_emits, emit_edge, next_id, ih2, ih1, List.range'_succ]
          · simp [run_emits, emit_edge, next_id, ih3]
            omega

/-- Shows `List.range'` is strictly increasing. -/
theorem pairwise_lt_range_from (n : Nat) : ∀ s : Nat,
    List.Pairwise (fun a b => a < b) (List.range' s n) := by
  induction n with
  | zero => intro s; simp
  | succ k ih =>
      intro s
      rw [List.range'_succ]
      refine List.Pairwise.cons ?_ (ih (s + 1))
      intro b hb
      have := (List.mem_range'_1.mp hb).1
      omega

/-- C9: starting from a fresh `FileEmitter`, every sequence of
`emit_vertex` / `emit_edge` calls returns the ids 1, 2, 3, … in call order
(strictly increasing), and the record handed to the sink by each call
carries exactly the returned id and the element passed in. -/
theorem C9_emitter_ids_sequential (ops : List Element) :
    (run_emits FileEmitter.new ops).1 = List.range' 1 ops.length ∧
    List.Pairwise (fun a b => a < b) (run_emits FileEmitter.new ops).1 ∧
    (run_emits FileEmitter.new ops).2.sink.map (fun en => en.id) =
      (run_emits FileEmitter.new ops).1 ∧
    (run_emits FileEmitter.new ops).2.sink.map (fun en => en.data) = ops := by
  obtain ⟨h1, h2, h3⟩ := run_emits_general ops FileEmitter.new
  have hlen : (List.range' 1 ops.length).length = ops.length := by
    simp [List.length_range']
  refine ⟨h1, ?_, ?_, ?_⟩
  · rw [h1]
    exact pairwise_lt_range_from ops.length 1
  · rw [h2, h1]
    show List.map (fun en => en.id)
        (FileEmitter.new.sink ++
          (List.zip (List.range' 1 ops.length) ops).map
            (fun p => { id := p.1, data := p.2 })) = List.range' 1 ops.length
    simp only [FileEmitter.new, List.nil_append, List.map_map]
    have : ((fun en : Entry => en.id) ∘ fun p : Nat × Element =>
        ({ id := p.1, data := p.2 } : Entry)) = fun p => p.1 := rfl
    rw [this]
    exact List.map_fst_zip _ _ (by rw [hlen])
  · rw [h2]
    show List.map (fun en => en.data)
        (FileEmitter.new.sink ++
          (List.zip (List.range' 1 ops.length) ops).map
            (fun p => { id := p.1, data := p.2 })) = ops
    simp only [FileEmitter.new, List.nil_append, List.map_map]
    have : ((fun en : Entry => en.data) ∘ fun p : Nat × Element =>
        ({ id := p.1, data := p.2 } : Entry)) = fun p => p.2 := rfl
    rw [this]
    exact List.map_snd_zip _ _ (by rw [hlen])

/-- Shows `ensure_range_for` on a cache hit returns the cached id and
leaves the state untouched. -/
theorem ensure_range_for_hit (s : Indexer) (r : Reference) (rid : Nat)
    (h : get_range_id s.cache r.location.file_path
      r.location.range.start_byte = some rid) :
    ensure_range_for s r = (rid, s) := by
  simp [ensure_range_for, h]

/-- Shows the id returned by `ensure_range_for` on a cache miss. -/
theorem ensure_range_for_miss_fst (s : Indexer) (r : Reference)
    (h : get_range_id s.cache r.location.file_path
      r.location.range.start_byte = none) :
    (ensure_range_for s r).1 = s.emitter.id + 1 := by
  simp [ensure_range_for, h, emitV, emit_vertex, next_id]

/-- Shows the single Range vertex handed to the sink by `ensure_range_for`
on a cache miss. -/
theorem ensure_range_for_miss_sink (s : Indexer) (r : Reference)
    (h : get_range_id s.cache r.location.file_path
      r.location.range.start_byte = none) :
    (ensure_range_for s r).2.emitter.sink =
      s.emitter.sink ++
        [{ id := s.emitter.id + 1,
           data := Element.vertex (LVertex.range r.range) }] := by
  simp [ensure_range_for, h, emitV, emit_vertex, next_id]

/-- Shows the cache update performed by `ensure_range_for` on a miss. -/
theorem ensure_range_for_miss_cache (s : Indexer) (r : Reference)
    (h : get_range_id s.cache r.location.file_path
      r.location.range.start_byte = none) :
    (ensure_range_for s r).2.cache =
      cache_reference_range s.cache r (s.emitter.id + 1) := by
  simp [ensure_range_for, h, emitV, emit_vertex, next_id]

/-- C1 (amended, reference side): for references, at most one Range vertex
is emitted per `(file_path, start_byte)`: when a range id is already cached
for the pair, `ensure_range_for` returns it and emits nothing; two
references at the same pair produce at most one new Range vertex between
them and receive the same id. (Definitions, by contrast, always emit a
fresh Range vertex — see the counterexample.) -/
theorem C1_reference_range_reuse
    (s : Indexer) (r1 r2 : Reference) (m : List (Nat × Nat))
    (hf : r2.location.file_path = r1.location.file_path)
    (hb : r2.location.range.start_byte = r1.location.range.start_byte)
    (hm : lookupA s.cache.ranges r1.location.file_path = some m) :
    (ensure_range_for (ensure_range_for s r1).2 r2).1 =
      (ensure_range_for s r1).1 ∧
    range_vertex_count
        ((ensure_range_for (ensure_range_for s r1).2 r2).2).emitter.sink
      ≤ range_vertex_count s.emitter.sink + 1 ∧
    ∀ rid, get_range_id s.cache r1.location.file_path
        r1.location.range.start_byte = some rid →
      (ensure_range_for s r1).1 = rid ∧ (ensure_range_for s r1).2 = s := by
  cases hcase : get_range_id s.cache r1.location.file_path
      r1.location.range.start_byte with
  | some rid =>
      have e1 : ensure_range_for s r1 = (rid, s) := ensure_range_for_hit s r1 rid hcase
      have e2 : ensure_range_for s r2 = (rid, s) :=
        ensure_range_for_hit s r2 rid (by rw [hf, hb]; exact hcase)
      refine ⟨?_, ?_, ?_⟩
      · simp only [e1]
        rw [e2]
      · simp only [e1]
        rw [e2]
        exact Nat.le_succ _
      · intro rid' h'
        cases h'
        exact ⟨by simp [e1], by simp [e1]⟩
  | none =>
      have e1a := ensure_range_for_miss_fst s r1 hcase
      have e1b := ensure_range_for_miss_sink s r1 hcase
      have e1c := ensure_range_for_miss_cache s r1 hcase
      have hlook : get_range_id
          (cache_reference_range s.cache r1 (s.emitter.id + 1))
          r1.location.file_path r1.location.range.start_byte =
          some (s.emitter.id + 1) := by
        simp [get_range_id, cache_reference_range, lookupA_updateA, hm,
          lookupA_insertA]
      have hl2 : get_range_id (ensure_range_for s r1).2.cache
          r2.location.file_path r2.location.range.start_byte =
          some (s.emitter.id + 1) := by
        rw [hf, hb, e1c]
        exact hlook
      have e2 : ensure_range_for (ensure_range_for s r1).2 r2 =
          (s.emitter.id + 1, (ensure_range_for s r1).2) :=
        ensure_range_for_hit _ r2 _ hl2
      refine ⟨?_, ?_, ?_⟩
      · rw [e2, e1a]
      · rw [e2]
        show range_vertex_count (ensure_range_for s r1).2.emitter.sink ≤
          range_vertex_count s.emitter.sink + 1
        rw [e1b]
        simp [range_vertex_count, List.filter_append]
      · intro rid' h'
        simp at h'

/-- Witness for C1 at a concrete input: two references at `(a.ts, byte 5)`
processed from the `base1` state share one id and add at most one Range
vertex. -/
theorem C1_reference_range_reuse_witness :
    (ensure_range_for (ensure_range_for base1 r1W1).2 r2W1).1 =
      (ensure_range_for base1 r1W1).1 ∧
    range_vertex_count
        ((ensure_range_for (ensure_range_for base1 r1W1).2 r2W1).2).emitter.sink
      ≤ range_vertex_count base1.emitter.sink + 1 ∧
    ∀ rid, get_range_id base1.cache r1W1.location.file_path
        r1W1.location.range.start_byte = some rid →
      (ensure_range_for base1 r1W1).1 = rid ∧
      (ensure_range_for base1 r1W1).2 = base1 :=
  C1_reference_range_reuse base1 r1W1 r2W1 [] rfl rfl (by decide)

/-- Counterexample to C1 as stated: `index_definition` emits a Range vertex
unconditionally, so indexing two definitions at the same
`(a.ts, byte 6)` pair emits TWO Range vertices in one run (the starting
state has none), refuting "at most one Range vertex per pair". -/
theorem C1_counterexample :
    range_vertex_count base1.emitter.sink = 0 ∧
    d1aC1.location.file_path = d1bC1.location.file_path ∧
    d1aC1.location.range.start_byte = d1bC1.location.range.start_byte ∧
    ¬ d1aC1 = d1bC1 ∧
    range_vertex_count
      (index_definition (index_definition base1 d1aC1) d1bC1).emitter.sink = 2 := by
  refine ⟨by decide, rfl, rfl, by decide, by decide⟩

/-- Shows the id advance of `ensure_range_for` on a cache miss. -/
theorem ensure_range_for_miss_id (s : Indexer) (r : Reference)
    (h : get_range_id s.cache r.location.file_path
      r.location.range.start_byte = none) :
    (ensure_range_for s r).2.emitter.id = s.emitter.id + 1 := by
  simp [ensure_range_for, h, emitV, emit_vertex, next_id]

/-- Shows membership in the sink survives `emitV` (the sink only grows). -/
theorem emitV_mem (s : Indexer) (v : LVertex) (en : Entry)
    (h : en ∈ s.emitter.sink) : en ∈ (emitV s v).2.emitter.sink := by
  simp only [emitV, emit_vertex, next_id]
  exact List.mem_append_left _ h

/-- Shows membership in the sink survives `emitE`. -/
theorem emitE_mem (s : Indexer) (g : LEdge) (en : Entry)
    (h : en ∈ s.emitter.sink) : en ∈ (emitE s g).2.emitter.sink := by
  simp only [emitE, emit_edge, next_id]
  exact List.mem_append_left _ h

/-- Shows membership in the sink survives a fold whose step only ever
appends to the sink. -/
theorem foldl_sink_mono {γ : Type} (step : Indexer → γ → Indexer)
    (hstep : ∀ (t : Indexer) (a : γ) (en : Entry),
      en ∈ t.emitter.sink → en ∈ (step t a).emitter.sink)
    (l : List γ) : ∀ (t : Indexer) (en : Entry),
      en ∈ t.emitter.sink → en ∈ (l.foldl step t).emitter.sink := by
  induction l with
  | nil => intro t en h; simpa using h
  | cons a rest ih =>
      intro t en h
      exact ih (step t a) en (hstep t a en h)

/-- Shows a record property established by one step of a monotone fold for
some list element survives to the end of the fold. -/
theorem foldl_sink_exists {γ : Type} (step : Indexer → γ → Indexer)
    (P : Entry → Prop)
    (hstep : ∀ (t : Indexer) (a : γ) (en : Entry),
      en ∈ t.emitter.sink → en ∈ (step t a).emitter.sink)
    (a : γ)
    (hex : ∀ t : Indexer, ∃ en, en ∈ (step t a).emitter.sink ∧ P en) :
    ∀ (l : List γ), a ∈ l →
      ∀ t : Indexer, ∃ en, en ∈ (l.foldl step t).emitter.sink ∧ P en := by
  intro l
  induction l with
  | nil => intro ha; exact absurd ha (by simp)
  | cons b rest ih =>
      intro ha t
      rcases List.mem_cons.mp ha with hab | ha'
      · subst hab
        obtain ⟨en, hen, hP⟩ := hex t
        exact ⟨en, foldl_sink_mono step hstep rest (step t a) en hen, hP⟩
      · exact ih ha' (step t b)

/-- Shows the `contains` edge of any cached document with at least one
range id appears in the output of `emit_contains`. -/
theorem emit_contains_mem (s : Indexer) (di : DocumentInfo)
    (hmem : di ∈ s.cache.documents.map Prod.snd)
    (hne : ¬ (di.reference_range_ids ++ di.definition_range_ids) = []) :
    ∃ en, en ∈ (emit_contains s).emitter.sink ∧
      en.data = Element.edge (LEdge.contains di.id
        (di.reference_range_ids ++ di.definition_range_ids)) := by
  have hstep : ∀ (t : Indexer) (a : DocumentInfo) (en : Entry),
      en ∈ t.emitter.sink →
      en ∈ ((fun (t : Indexer) (di : DocumentInfo) =>
        if di.reference_range_ids ++ di.definition_range_ids = [] then t
        else (emitE t (LEdge.contains di.id
          (di.reference_range_ids ++ di.definition_range_ids))).2) t a).emitter.sink := by
    intro t a en h
    by_cases hc : a.reference_range_ids ++ a.definition_range_ids = []
    · simpa [hc] using h
    · simpa [hc] using emitE_mem t _ en h
  have hex : ∀ t : Indexer, ∃ en,
      en ∈ ((fun (t : Indexer) (di : DocumentInfo) =>
        if di.reference_range_ids ++ di.definition_range_ids = [] then t
        else (emitE t (LEdge.contains di.id
          (di.reference_range_ids ++ di.definition_range_ids))).2) t di).emitter.sink ∧
      en.data = Element.edge (LEdge.contains di.id
        (di.reference_range_ids ++ di.definition_range_ids)) := by
    intro t
    refine ⟨{ id := t.emitter.id + 1,
              data := Element.edge (LEdge.contains di.id
                (di.reference_range_ids ++ di.definition_range_ids)) }, ?_, rfl⟩
    simp [hne, emitE, emit_edge, next_id]
  obtain ⟨en, hen, hP⟩ := foldl_sink_exists _ _ hstep di hex
    (s.cache.documents.map Prod.snd) hmem s
  exact ⟨en, emitE_mem _ _ en hen, hP⟩

/-- Shows every per-document entry of a cached `DefinitionInfo` yields a
`ref_item` edge in the output of `link_items_to_definitions`. -/
theorem link_items_mem (s : Indexer) (dinfo : DefinitionInfo)
    (k : Nat) (ids : List Nat)
    (hmem : dinfo ∈ s.cache.def_infos.map Prod.snd)
    (hkv : (k, ids) ∈ dinfo.reference_range_ids) :
    ∃ rr en, en ∈ (link_items_to_definitions s).emitter.sink ∧
      en.data = Element.edge (LEdge.item ItemProperty.references rr ids k) := by
  have hinner_mono : ∀ (rr : Nat) (t : Indexer) (pr : Nat × List Nat) (en : Entry),
      en ∈ t.emitter.sink →
      en ∈ ((emitE t (LEdge.item ItemProperty.references rr pr.2 pr.1)).2).emitter.sink :=
    fun rr t pr en h => emitE_mem t _ en h
  have hstep : ∀ (t : Indexer) (a : DefinitionInfo) (en : Entry),
      en ∈ t.emitter.sink →
      en ∈ ((fun (t : Indexer) (d : DefinitionInfo) =>
        let p := emitV t LVertex.referenceResult
        let q1 := emitE p.2 (LEdge.referencesEdge d.result_set_id p.1)
        let q2 := emitE q1.2 (LEdge.item ItemProperty.definitions p.1
          [d.range_id] d.document_id)
        d.reference_range_ids.foldl
          (fun t pr =>
            (emitE t (LEdge.item ItemProperty.references p.1 pr.2 pr.1)).2)
          q2.2) t a).emitter.sink := by
    intro t a en h
    refine foldl_sink_mono _ (fun t' pr en' h' => emitE_mem t' _ en' h') _ _ en ?_
    exact emitE_mem _ _ en (emitE_mem _ _ en (emitV_mem _ _ en h))
  have hex : ∀ t : Indexer, ∃ en,
      en ∈ ((fun (t : Indexer) (d : DefinitionInfo) =>
        let p := emitV t LVertex.referenceResult
        let q1 := emitE p.2 (LEdge.referencesEdge d.result_set_id p.1)
        let q2 := emitE q1.2 (LEdge.item ItemProperty.definitions p.1
          [d.range_id] d.document_id)
        d.reference_range_ids.foldl
          (fun t pr =>
            (emitE t (LEdge.item ItemProperty.references p.1 pr.2 pr.1)).2)
          q2.2) t dinfo).emitter.sink ∧
      (∃ rr, en.data = Element.edge (LEdge.item ItemProperty.references rr ids k)) := by
    intro t
    have hex' : ∀ t' : Indexer, ∃ en,
        en ∈ ((emitE t' (LEdge.item ItemProperty.references
          (emitV t LVertex.referenceResult).1 ids k)).2).emitter.sink ∧
        (∃ rr, en.data =
          Element.edge (LEdge.item ItemProperty.references rr ids k)) := by
      intro t'
      refine ⟨{ id := t'.emitter.id + 1,
                data := Element.edge (LEdge.item ItemProperty.references
                  (emitV t LVertex.referenceResult).1 ids k) }, ?_,
              ⟨(emitV t LVertex.referenceResult).1, rfl⟩⟩
      simp [emitE, emit_edge, next_id]
    have := foldl_sink_exists
      (fun t' pr =>
        (emitE t' (LEdge.item ItemProperty.references
          (emitV t LVertex.referenceResult).1 pr.2 pr.1)).2)
      (fun en => ∃ rr, en.data =
        Element.edge (LEdge.item ItemProperty.references rr ids k))
      (fun t' pr en h => emitE_mem t' _ en h)
      (k, ids) hex' dinfo.reference_range_ids hkv
    exact this _
  obtain ⟨en, hen, rr, hP⟩ :=
    foldl_sink_exists _ _ hstep dinfo hex (s.cache.def_infos.map Prod.snd) hmem s
  exact ⟨rr, en, hen, hP⟩

/-- Shows the emitter part of `index_reference_to_definition`: one `next`
edge record appended after whatever `ensure_range_for` did. -/
theorem irtd_sink (s : Indexer) (d : Definition) (r : Reference)
    (info : DefinitionInfo)
    (hg : get_definition_info (ensure_range_for s r).2.cache d.location =
      some info) :
    (index_reference_to_definition s d r).emitter.sink =
      (ensure_range_for s r).2.emitter.sink ++
        [{ id := (ensure_range_for s r).2.emitter.id + 1,
           data := Element.edge
             (LEdge.next (ensure_range_for s r).1 info.result_set_id) }] := by
  simp [index_reference_to_definition, hg, emitE, emit_edge, next_id]

/-- Shows the emitter id advance of `index_reference_to_definition`. -/
theorem irtd_id (s : Indexer) (d : Definition) (r : Reference)
    (info : DefinitionInfo)
    (hg : get_definition_info (ensure_range_for s r).2.cache d.location =
      some info) :
    (index_reference_to_definition s d r).emitter.id =
      (ensure_range_for s r).2.emitter.id + 1 := by
  simp [index_reference_to_definition, hg, emitE, emit_edge, next_id]

/-- Shows the cache part of `index_reference_to_definition`. -/
theorem irtd_cache (s : Indexer) (d : Definition) (r : Reference)
    (info : DefinitionInfo)
    (hg : get_definition_info (ensure_range_for s r).2.cache d.location =
      some info) :
    (index_reference_to_definition s d r).cache =
      cache_reference (ensure_range_for s r).2.cache d r
        (ensure_range_for s r).1 := by
  simp [index_reference_to_definition, hg, emitE, emit_edge, next_id]

/-- Shows the `def_infos` update of `cache_reference` when the definition's
document is cached: the range id is pushed under the DEFINITION document's
id. -/
theorem cache_reference_def_infos (c : LsifDataCache) (d : Definition)
    (r : Reference) (rid : Nat) (ddoc : DocumentInfo)
    (hdd : lookupA c.documents d.location.file_path = some ddoc) :
    (cache_reference c d r rid).def_infos =
      updateA (fun info => { info with
        reference_range_ids := pushAt info.reference_range_ids ddoc.id rid })
        c.def_infos d.location := by
  simp [cache_reference, hdd]

/-- Shows the `documents` update of `cache_reference`: the range id is
appended to the REFERENCING document's reference list. -/
theorem cache_reference_documents (c : LsifDataCache) (d : Definition)
    (r : Reference) (rid : Nat) (ddoc : DocumentInfo)
    (hdd : lookupA c.documents d.location.file_path = some ddoc) :
    (cache_reference c d r rid).documents =
      updateA (fun di => { di with
        reference_range_ids := di.reference_range_ids ++ [rid] })
        c.documents r.location.file_path := by
  simp [cache_reference, hdd]

/-- Shows `cache_reference` leaves the per-file range map unchanged. -/
theorem cache_reference_ranges (c : LsifDataCache) (d : Definition)
    (r : Reference) (rid : Nat) (ddoc : DocumentInfo)
    (hdd : lookupA c.documents d.location.file_path = some ddoc) :
    (cache_reference c d r rid).ranges = c.ranges := by
  simp [cache_reference, hdd]

/-- C10: when two distinct resolved references share one
`(file_path, start_byte)` not yet cached, indexing both emits exactly ONE
Range vertex for the pair, yet the single cached range id is appended once
per reference to the referencing document's `reference_range_ids` and to
the definition's per-document reference list, so the document's `contains`
edge and the definition's `ref_item` edge both list that id twice. -/
theorem C10_duplicate_reference_offsets
    (s : Indexer) (d : Definition) (r1 r2 : Reference)
    (m : List (Nat × Nat)) (info : DefinitionInfo)
    (ddoc rdoc : DocumentInfo)
    (hf : r2.location.file_path = r1.location.file_path)
    (hb : r2.location.range.start_byte = r1.location.range.start_byte)
    (h1 : r1.rdef = some d) (h2 : r2.rdef = some d)
    (hm : lookupA s.cache.ranges r1.location.file_path = some m)
    (hmb : lookupA m r1.location.range.start_byte = none)
    (hinfo : lookupA s.cache.def_infos d.location = some info)
    (hdd : lookupA s.cache.documents d.location.file_path = some ddoc)
    (hrd : lookupA s.cache.documents r1.location.file_path = some rdoc) :
    range_vertex_count
        (index_reference (index_reference s r1) r2).emitter.sink =
      range_vertex_count s.emitter.sink + 1 ∧
    (lookupA (index_reference (index_reference s r1) r2).cache.documents
        r1.location.file_path).map (fun di => di.reference_range_ids) =
      some (rdoc.reference_range_ids ++
        [s.emitter.id + 1, s.emitter.id + 1]) ∧
    (lookupA (index_reference (index_reference s r1) r2).cache.def_infos
        d.location).map (fun i => lookupA i.reference_range_ids ddoc.id) =
      some (some ((lookupA info.reference_range_ids ddoc.id).getD [] ++
        [s.emitter.id + 1, s.emitter.id + 1])) ∧
    (∃ en l, en ∈ (emit_contains
          (index_reference (index_reference s r1) r2)).emitter.sink ∧
        en.data = Element.edge (LEdge.contains rdoc.id l) ∧
        2 ≤ l.count (s.emitter.id + 1)) ∧
    (∃ rr en l, en ∈ (link_items_to_definitions
          (index_reference (index_reference s r1) r2)).emitter.sink ∧
        en.data = Element.edge
          (LEdge.item ItemProperty.references rr l ddoc.id) ∧
        2 ≤ l.count (s.emitter.id + 1)) := by
  have hgr1 : get_range_id s.cache r1.location.file_path
      r1.location.range.start_byte = none := by
    simp [get_range_id, hm, hmb]
  have estep1 : index_reference s r1 = index_reference_to_definition s d r1 := by
    simp [index_reference, h1]
  have hmc := ensure_range_for_miss_cache s r1 hgr1
  have hginfo1 : get_definition_info (ensure_range_for s r1).2.cache
      d.location = some info := by
    rw [hmc]
    simpa [get_definition_info, cache_reference_range] using hinfo
  have hfst1 := ensure_range_for_miss_fst s r1 hgr1
  have hsink1 := ensure_range_for_miss_sink s r1 hgr1
  have hid1 := ensure_range_for_miss_id s r1 hgr1
  have s1sink : (index_reference s r1).emitter.sink =
      (s.emitter.sink ++
        [{ id := s.emitter.id + 1,
           data := Element.vertex (LVertex.range r1.range) }]) ++
        [{ id := s.emitter.id + 1 + 1,
           data := Element.edge
             (LEdge.next (s.emitter.id + 1) info.result_set_id) }] := by
    rw [estep1, irtd_sink s d r1 info hginfo1, hsink1, hid1, hfst1]
  have s1id : (index_reference s r1).emitter.id = s.emitter.id + 1 + 1 := by
    rw [estep1, irtd_id s d r1 info hginfo1, hid1]
  have s1cache : (index_reference s r1).cache =
      cache_reference (cache_reference_range s.cache r1 (s.emitter.id + 1))
        d r1 (s.emitter.id + 1) := by
    rw [estep1, irtd_cache s d r1 info hginfo1, hmc, hfst1]
  have hdd0 : lookupA (cache_reference_range s.cache r1
      (s.emitter.id + 1)).documents d.location.file_path = some ddoc := hdd
  have s1docs : (index_reference s r1).cache.documents =
      updateA (fun di => { di with
          reference_range_ids := di.reference_range_ids ++ [s.emitter.id + 1] })
        s.cache.documents r1.location.file_path := by
    rw [s1cache, cache_reference_documents _ d r1 _ ddoc hdd0]
    rfl
  have s1defs : (index_reference s r1).cache.def_infos =
      updateA (fun i => { i with
          reference_range_ids :=
            pushAt i.reference_range_ids ddoc.id (s.emitter.id + 1) })
        s.cache.def_infos d.location := by
    rw [s1cache, cache_reference_def_infos _ d r1 _ ddoc hdd0]
    rfl
  have s1ranges : (index_reference s r1).cache.ranges =
      updateA (fun mm =>
          insertA mm r1.location.range.start_byte (s.emitter.id + 1))
        s.cache.ranges r1.location.file_path := by
    rw [s1cache, cache_reference_ranges _ d r1 _ ddoc hdd0]
    rfl
  have hgr2 : get_range_id (index_reference s r1).cache
      r2.location.file_path r2.location.range.start_byte =
      some (s.emitter.id + 1) := by
    rw [hf, hb]
    simp [get_range_id, s1ranges, lookupA_updateA, hm, lookupA_insertA]
  have estep2 : index_reference (index_reference s r1) r2 =
      index_reference_to_definition (index_reference s r1) d r2 := by
    simp [index_reference, h2]
  have ehit2 : ensure_range_for (index_reference s r1) r2 =
      (s.emitter.id + 1, index_reference s r1) :=
    ensure_range_for_hit _ r2 _ hgr2
  have hginfo2 : get_definition_info
      (ensure_range_for (index_reference s r1) r2).2.cache d.location =
      some { info with
        reference_range_ids :=
          pushAt info.reference_range_ids ddoc.id (s.emitter.id + 1) } := by
    rw [ehit2]
    simp [get_definition_info, s1defs, lookupA_updateA, hinfo]
  have s2sink : (index_reference (index_reference s r1) r2).emitter.sink =
      (index_reference s r1).emitter.sink ++
        [{ id := (index_reference s r1).emitter.id + 1,
           data := Element.edge
             (LEdge.next (s.emitter.id + 1) info.result_set_id) }] := by
    rw [estep2, irtd_sink _ d r2 _ hginfo2, ehit2]
  have s2cache : (index_reference (index_reference s r1) r2).cache =
      cache_reference (index_reference s r1).cache d r2 (s.emitter.id + 1) := by
    rw [estep2, irtd_cache _ d r2 _ hginfo2, ehit2]
  obtain ⟨ddoc1, hdd1, hdd1id⟩ : ∃ dd,
      lookupA (index_reference s r1).cache.documents d.location.file_path =
        some dd ∧ dd.id = ddoc.id := by
    by_cases hp : r1.location.file_path = d.location.file_path
    · exact ⟨{ ddoc with
          reference_range_ids := ddoc.reference_range_ids ++ [s.emitter.id + 1] },
        by simp [s1docs, lookupA_updateA, hp, hdd], rfl⟩
    · exact ⟨ddoc, by simp [s1docs, lookupA_updateA, hp, hdd], rfl⟩
  have s2docs : (index_reference (index_reference s r1) r2).cache.documents =
      updateA (fun di => { di with
          reference_range_ids := di.reference_range_ids ++ [s.emitter.id + 1] })
        (index_reference s r1).cache.documents r2.location.file_path := by
    rw [s2cache, cache_reference_documents _ d r2 _ ddoc1 hdd1]
  have s2defs : (index_reference (index_reference s r1) r2).cache.def_infos =
      updateA (fun i => { i with
          reference_range_ids :=
            pushAt i.reference_range_ids ddoc1.id (s.emitter.id + 1) })
        (index_reference s r1).cache.def_infos d.location := by
    rw [s2cache, cache_reference_def_infos _ d r2 _ ddoc1 hdd1]
  have hlookdoc : lookupA
      (index_reference (index_reference s r1) r2).cache.documents
      r1.location.file_path =
      some { rdoc with
        reference_range_ids := rdoc.reference_range_ids ++
          [s.emitter.id + 1, s.emitter.id + 1] } := by
    simp [s2docs, s1docs, hf, lookupA_updateA, hrd]
  have hlookinfo : lookupA
      (index_reference (index_reference s r1) r2).cache.def_infos
      d.location =
      some { info with
        reference_range_ids :=
          pushAt (pushAt info.reference_range_ids ddoc.id (s.emitter.id + 1))
            ddoc.id (s.emitter.id + 1) } := by
    simp [s2defs, s1defs, lookupA_updateA, hinfo, hdd1id]
  refine ⟨?_, ?_, ?_, ?_, ?_⟩
  · rw [s2sink, s1sink]
    simp [range_vertex_count, List.filter_append]
  · simp [hlookdoc]
  · simp [hlookinfo, lookupA_pushAt]
  · have hpair := lookupA_mem hlookdoc
    have hmem2 : ({ rdoc with
        reference_range_ids := rdoc.reference_range_ids ++
          [s.emitter.id + 1, s.emitter.id + 1] } : DocumentInfo) ∈
        (index_reference (index_reference s r1) r2).cache.documents.map
          Prod.snd :=
      List.mem_map.mpr ⟨_, hpair, rfl⟩
    obtain ⟨en, hen, hdata⟩ := emit_contains_mem _ _ hmem2 (by simp)
    refine ⟨en, _, hen, hdata, ?_⟩
    simp [List.count_append, List.count_cons]
    omega
  · have hkv : (ddoc.id,
        (lookupA info.reference_range_ids ddoc.id).getD [] ++
          [s.emitter.id + 1, s.emitter.id + 1]) ∈
        ({ info with
          reference_range_ids :=
            pushAt (pushAt info.reference_range_ids ddoc.id (s.emitter.id + 1))
              ddoc.id (s.emitter.id + 1) } : DefinitionInfo).reference_range_ids := by
      apply lookupA_mem
      simp [lookupA_pushAt]
    have hmem3 : ({ info with
        reference_range_ids :=
          pushAt (pushAt info.reference_range_ids ddoc.id (s.emitter.id + 1))
            ddoc.id (s.emitter.id + 1) } : DefinitionInfo) ∈
        (index_reference (index_reference s r1) r2).cache.def_infos.map
          Prod.snd :=
      List.mem_map.mpr ⟨_, lookupA_mem hlookinfo, rfl⟩
    obtain ⟨rr, en, hen, hdata⟩ := link_items_mem _ _ ddoc.id _ hmem3 hkv
    refine ⟨rr, en, _, hen, hdata, ?_⟩
    simp [List.count_append, List.count_cons]

/-- Witness for C10 at a concrete input: two distinct resolved references
at `(b.ts, byte 40)` indexed after one definition in `a.ts`. -/
theorem C10_duplicate_reference_offsets_witness :
    range_vertex_count
        (index_reference (index_reference sDefC10 r1C10) r2C10).emitter.sink =
      range_vertex_count sDefC10.emitter.sink + 1 ∧
    (lookupA
        (index_reference (index_reference sDefC10 r1C10) r2C10).cache.documents
        r1C10.location.file_path).map (fun di => di.reference_range_ids) =
      some (rdocC10.reference_range_ids ++
        [sDefC10.emitter.id + 1, sDefC10.emitter.id + 1]) ∧
    (lookupA
        (index_reference (index_reference sDefC10 r1C10) r2C10).cache.def_infos
        dC10.location).map (fun i => lookupA i.reference_range_ids ddocC10.id) =
      some (some ((lookupA infoC10.reference_range_ids ddocC10.id).getD [] ++
        [sDefC10.emitter.id + 1, sDefC10.emitter.id + 1])) ∧
    (∃ en l, en ∈ (emit_contains
          (index_reference (index_reference sDefC10 r1C10) r2C10)).emitter.sink ∧
        en.data = Element.edge (LEdge.contains rdocC10.id l) ∧
        2 ≤ l.count (sDefC10.emitter.id + 1)) ∧
    (∃ rr en l, en ∈ (link_items_to_definitions
          (index_reference (index_reference sDefC10 r1C10) r2C10)).emitter.sink ∧
        en.data = Element.edge
          (LEdge.item ItemProperty.references rr l ddocC10.id) ∧
        2 ≤ l.count (sDefC10.emitter.id + 1)) :=
  C10_duplicate_reference_offsets sDefC10 dC10 r1C10 r2C10 [] infoC10
    ddocC10 rdocC10 rfl rfl rfl rfl (by decide) (by decide) (by decide)
    (by decide) (by decide)

end Lsif
